import Mathlib

/-!
Shallow embedding of the scoped filesystem core of the wolke WebDAV server:
the `ScopedPath` type of `crates/scoped-fs/src/lib.rs` and the
`SimpleFilesystemProvider` / `SimpleFilesystem` / `FileStream` implementations
of `src/filesystem.rs`.

Rust strings are modelled as `List Char`, file contents as `List Nat` (one
`Nat` per byte), and the on-disk state seen by the `std::fs` calls as an
association list from absolute OS path strings to entries (regular file with
content, or directory).
-/

namespace Wolke

/-- Rust `str::trim_end_matches(c)`: removes every trailing occurrence of
the character `c`. -/
def trimEndMatches (c : Char) (s : List Char) : List Char :=
  (s.reverse.dropWhile (fun x => x == c)).reverse

/-- `ScopedPath` from `crates/scoped-fs/src/lib.rs`: a newtype around the raw
path string.  The comment on the Rust struct states it contains no trailing
slash. -/
structure ScopedPath where
  str : List Char
deriving DecidableEq, Repr

/-- `ScopedPath::new`: stores the raw string with every trailing `/`
removed (`trim_end_matches('/')`). -/
def ScopedPath.new (path : List Char) : ScopedPath :=
  ⟨trimEndMatches '/' path⟩

/-- Rust `Path::join`: if the argument is absolute it replaces the base,
otherwise it is appended after a separator. -/
def pathJoin (base p : List Char) : List Char :=
  if p.head? = some '/' then p
  else if base.getLast? = some '/' then base ++ p
  else base ++ '/' :: p

/-- `ScopedPath::with_base`: `base.join(&self.0)`.  The Rust code carries a
TODO comment admitting that it does not ensure the result stays inside
`base`. -/
def ScopedPath.with_base (p : ScopedPath) (base : List Char) : List Char :=
  pathJoin base p.str

/-- `ScopedPath::join_segment`: pushes a `/` if the current string is
nonempty and does not already end in one, then appends `name` with its
leading slashes stripped (`trim_start_matches('/')`).  The segment is not
validated in any way. -/
def ScopedPath.join_segment (p : ScopedPath) (name : List Char) : ScopedPath :=
  let base :=
    if p.str ≠ [] ∧ p.str.getLast? ≠ some '/' then p.str ++ ['/'] else p.str
  ⟨base ++ name.dropWhile (fun x => x == '/')⟩

/-- `ScopedPath::is_collection`: `self.0.ends_with('/')`. -/
def ScopedPath.is_collection (p : ScopedPath) : Bool :=
  p.str.getLast? == some '/'

/-- Splits a path string at every `/` into its raw segments. -/
def splitSlashAux (cur : List Char) : List Char → List (List Char)
  | [] => [cur.reverse]
  | c :: rest =>
    if c == '/' then cur.reverse :: splitSlashAux [] rest
    else splitSlashAux (c :: cur) rest

/-- Splits a path string at every `/`. -/
def splitSlash (s : List Char) : List (List Char) :=
  splitSlashAux [] s

/-- Lexical resolution of an absolute path the way the operating system
resolves it at syscall time: a `..` segment pops the previous component,
`.` and empty segments vanish. -/
def normalizeSegs (acc : List (List Char)) : List (List Char) → List (List Char)
  | [] => acc.reverse
  | seg :: rest =>
    if seg = ['.', '.'] then normalizeSegs acc.tail rest
    else if seg = [] ∨ seg = ['.'] then normalizeSegs acc rest
    else normalizeSegs (seg :: acc) rest

/-- The component list an absolute path string resolves to. -/
def resolveAbs (p : List Char) : List (List Char) :=
  normalizeSegs [] (splitSlash p)

/-- Containment: the resolved location of `p` lies inside the resolved
location of `root`. -/
def isWithin (root p : List Char) : Bool :=
  (resolveAbs root).isPrefixOf (resolveAbs p)

/-- The error type of `src/filesystem.rs`: `IO`, `NotFound`, `Conflict`.
The `From` impl maps only the `NotFound` io error kind to `notFound`; every
other io error kind (including `AlreadyExists` and `NotADirectory`) stays an
`ioError`. -/
inductive Error where
  | ioError
  | notFound
  | conflict
deriving DecidableEq, Repr

/-- Rust `Path::starts_with`: component-wise prefix comparison with empty
and `.` components dropped; a `..` component is kept as an ordinary
component, so no lexical normalization happens. -/
def components (p : List Char) : List (List Char) :=
  match splitSlash p with
  | [] => []
  | first :: rest => first :: rest.filter (fun seg => !(seg == [] || seg == ['.']))

/-- Whether `p` starts with `base`, component-wise (Rust
`Path::starts_with`). -/
def startsWithPath (p base : List Char) : Bool :=
  (components base).isPrefixOf (components p)

/-- `SimpleFilesystemProvider::get_filesystem`: joins the mount name onto the
storage root, asserts the lexical `starts_with` check (the `none` result
models the `assert!` panic), and returns a filesystem rooted at the joined
path.  There is no mount-existence check and `NotFound` is never produced. -/
def get_filesystem (root mount : List Char) : Option (Except Error (List Char)) :=
  if startsWithPath (pathJoin root mount) root then some (.ok (pathJoin root mount))
  else none

/-- The head of `dropWhile p l`, when present, does not satisfy `p`. -/
theorem head?_dropWhile_false {p : Char → Bool} {a : Char} :
    ∀ {l : List Char}, (l.dropWhile p).head? = some a → p a = false := by
  intro l
  induction l with
  | nil => intro h; simp [List.dropWhile] at h
  | cons b t ih =>
    intro h
    rw [List.dropWhile_cons] at h
    by_cases hb : p b = true
    · rw [if_pos hb] at h
      exact ih h
    · rw [if_neg hb] at h
      simp at h
      rw [← h]
      simpa using hb

/-- `dropWhile` is idempotent. -/
theorem dropWhile_dropWhile (p : Char → Bool) (l : List Char) :
    (l.dropWhile p).dropWhile p = l.dropWhile p := by
  induction l with
  | nil => rfl
  | cons b t ih =>
    rw [List.dropWhile_cons]
    by_cases hb : p b = true
    · rw [if_pos hb]
      exact ih
    · rw [if_neg hb, List.dropWhile_cons, if_neg hb]

/-- After trimming trailing occurrences of `c`, the last character is never
`c`. -/
theorem trimEndMatches_getLast? (c : Char) (s : List Char) :
    (trimEndMatches c s).getLast? ≠ some c := by
  intro h
  unfold trimEndMatches at h
  rw [List.getLast?_reverse] at h
  have := head?_dropWhile_false h
  simp at this

/-- Trimming trailing occurrences is idempotent. -/
theorem trimEndMatches_idem (c : Char) (s : List Char) :
    trimEndMatches c (trimEndMatches c s) = trimEndMatches c s := by
  unfold trimEndMatches
  rw [List.reverse_reverse, dropWhile_dropWhile]

/-- Claim C10: `ScopedPath` construction strips every trailing separator, so
no constructed path's string ends with a slash, and construction is
idempotent: re-constructing from the stored string yields an equal path. -/
theorem c10_new_strips_trailing_and_idempotent (s : List Char) :
    (ScopedPath.new s).str.getLast? ≠ some '/' ∧
    ScopedPath.new (ScopedPath.new s).str = ScopedPath.new s := by
  constructor
  · exact trimEndMatches_getLast? '/' s
  · unfold ScopedPath.new
    rw [trimEndMatches_idem]

/-- Claim C10 witness: the property instantiated at the raw string
with two trailing slashes. -/
theorem c10_witness :
    (ScopedPath.new ['a', '/', '/']).str.getLast? ≠ some '/' ∧
    ScopedPath.new (ScopedPath.new ['a', '/', '/']).str
      = ScopedPath.new ['a', '/', '/'] :=
  c10_new_strips_trailing_and_idempotent ['a', '/', '/']

/-- Claim C5 counterexample: the path constructed from the raw string
with a trailing slash is NOT a collection, because construction strips the
trailing separator first; `is_collection` returns `false`, while the claim
says it returns `true`. -/
theorem c5_counterexample :
    (ScopedPath.new ['a', '/', 'b', '/']).is_collection = false := by decide

/-- Claim C5 (amended): `is_collection` reports whether the stored string
ends with the separator, and since construction strips every trailing
separator, every constructed path has `is_collection = false` — including the
one built from a raw string with a trailing slash. -/
theorem c5_amended_is_collection (s : List Char) :
    (ScopedPath.new s).is_collection = false ∧
    ∀ p : ScopedPath, p.is_collection = true ↔ p.str.getLast? = some '/' := by
  constructor
  · have h := trimEndMatches_getLast? '/' s
    unfold ScopedPath.is_collection ScopedPath.new
    simpa using h
  · intro p
    unfold ScopedPath.is_collection
    simp

/-- Claim C5 witness: the amended statement instantiated at a concrete raw
string. -/
theorem c5_witness :
    (ScopedPath.new ['x', '/']).is_collection = false ∧
    ∀ p : ScopedPath, p.is_collection = true ↔ p.str.getLast? = some '/' :=
  c5_amended_is_collection ['x', '/']

/-- Claim C3: `join_segment` performs no validation.  Joining the segment
consisting of two dots onto the path built from the single character a
produces a stored string containing a parent-directory segment, and a segment
containing a separator is spliced in verbatim, instead of either being
rejected. -/
theorem c3_join_segment_accepts_dotdot_and_separator :
    ((ScopedPath.new ['a']).join_segment ['.', '.']).str = ['a', '/', '.', '.'] ∧
    ((ScopedPath.new ['a']).join_segment ['x', '/', 'y']).str
      = ['a', '/', 'x', '/', 'y'] := by decide

/-- Claim C1: the containment invariant fails.  A `ScopedPath` constructed
from a raw string beginning with a parent-directory segment survives
construction unchanged, and `with_base` joins it under the root verbatim, so
the joined location resolves outside the root directory. -/
theorem c1_with_base_escapes_root :
    (ScopedPath.new ['.', '.', '/', 's', 'e', 'c', 'r', 'e', 't']).with_base
        ['/', 'd', 'a', 't', 'a']
      = ['/', 'd', 'a', 't', 'a', '/', '.', '.', '/',
         's', 'e', 'c', 'r', 'e', 't'] ∧
    isWithin ['/', 'd', 'a', 't', 'a']
      ((ScopedPath.new ['.', '.', '/', 's', 'e', 'c', 'r', 'e', 't']).with_base
        ['/', 'd', 'a', 't', 'a']) = false := by decide

/-- Claim C2: `get_filesystem` applied to a mount name containing a
parent-directory segment returns a filesystem (not `NotFound`) whose root
joins the traversal segment verbatim and therefore resolves outside the
shared storage root: the lexical `starts_with` assertion does not catch it,
and no mount-existence check is made. -/
theorem c2_get_filesystem_mount_escapes :
    get_filesystem ['/', 'd', 'a', 't', 'a'] ['.', '.', '/', 'e', 'v', 'i', 'l']
      = some (.ok ['/', 'd', 'a', 't', 'a', '/', '.', '.', '/',
                   'e', 'v', 'i', 'l']) ∧
    isWithin ['/', 'd', 'a', 't', 'a']
      ['/', 'd', 'a', 't', 'a', '/', '.', '.', '/', 'e', 'v', 'i', 'l']
      = false :=
  ⟨rfl, by decide⟩

/-- An entry of the on-disk state: a regular file with its byte content, or
a directory. -/
inductive Entry where
  | file (content : List Nat)
  | dir
deriving DecidableEq, Repr

/-- The on-disk state seen by the `std::fs` calls: an association list from
absolute OS path strings to entries.  Lookup returns the first match. -/
def FsState : Type := List (List Char × Entry)

instance : DecidableEq FsState := by
  unfold FsState
  infer_instance

/-- Looks a path up in the state. -/
def lookupEntry : FsState → List Char → Option Entry
  | [], _ => none
  | (k, e) :: rest, p => if k = p then some e else lookupEntry rest p

/-- Removes every entry stored under exactly the given path. -/
def removeEntry (st : FsState) (p : List Char) : FsState :=
  st.filter (fun e => e.1 != p)

/-- Stores an entry under a path, replacing any previous entry there. -/
def setEntry (st : FsState) (p : List Char) (e : Entry) : FsState :=
  (p, e) :: removeEntry st p

/-- Whether the state holds any entry strictly below the given path. -/
def hasChild (st : FsState) (p : List Char) : Bool :=
  st.any (fun e => (p ++ ['/']).isPrefixOf e.1)

/-- The parent of an absolute path: everything before the last slash. -/
def parentOf (p : List Char) : List Char :=
  ((p.reverse.dropWhile (fun x => x != '/')).drop 1).reverse

/-- `SimpleFilesystem::delete_file`: resolves the path, removes it if it is a
file; if it is a directory, `remove_dir` removes it only when empty (a
non-empty directory is an os error, which the `From` impl keeps as `IO`);
when the path resolves to neither, the function silently returns `Ok(())`. -/
def delete_file (st : FsState) (root : List Char) (p : ScopedPath) :
    FsState × Except Error Unit :=
  match lookupEntry st (p.with_base root) with
  | some (Entry.file _) => (removeEntry st (p.with_base root), Except.ok ())
  | some Entry.dir =>
    if hasChild st (p.with_base root) then (st, Except.error Error.ioError)
    else (removeEntry st (p.with_base root), Except.ok ())
  | none => (st, Except.ok ())

/-- The name of an immediate child of `parentPath` stored at key `k`, if `k`
is such a child. -/
def childName (parentPath k : List Char) : Option (List Char) :=
  if (parentPath ++ ['/']).isPrefixOf k then
    if k.drop (parentPath.length + 1) ≠ [] ∧
        ¬ '/' ∈ k.drop (parentPath.length + 1) then
      some (k.drop (parentPath.length + 1))
    else none
  else none

/-- `SimpleFilesystem::list_dir`: `read_dir` on a missing path fails with the
`NotFound` io error kind (mapped to `notFound`); on a regular file it fails
with the `NotADirectory` io error kind, which the `From` impl keeps as an
`ioError`; on a directory it yields the one-level children, each joined onto
the queried path with `join_segment`. -/
def list_dir (st : FsState) (root : List Char) (p : ScopedPath) :
    FsState × Except Error (List ScopedPath) :=
  match lookupEntry st (p.with_base root) with
  | none => (st, Except.error Error.notFound)
  | some (Entry.file _) => (st, Except.error Error.ioError)
  | some Entry.dir =>
    (st, Except.ok
      ((st.filterMap (fun e => childName (p.with_base root) e.1)).map
        (fun n => p.join_segment n)))

/-- `SimpleFilesystem::create_dir`: `std::fs::create_dir` fails with the
`AlreadyExists` io error kind when the path exists (which the `From` impl
keeps as an `ioError`, not a `conflict`), with `NotFound` when the parent is
missing, and with `NotADirectory` (an `ioError`) when the parent is a file;
otherwise it inserts the new directory. -/
def create_dir (st : FsState) (root : List Char) (p : ScopedPath) :
    FsState × Except Error Unit :=
  match lookupEntry st (p.with_base root) with
  | some _ => (st, Except.error Error.ioError)
  | none =>
    match lookupEntry st (parentOf (p.with_base root)) with
    | some Entry.dir => (setEntry st (p.with_base root) Entry.dir, Except.ok ())
    | some (Entry.file _) => (st, Except.error Error.ioError)
    | none => (st, Except.error Error.notFound)

/-- `SimpleFilesystem::copy`: resolves both paths, computes whether the
destination exists, returns `Conflict` when it exists and overwrite was not
requested, and otherwise delegates to `std::fs::copy`.  The os call opens
the source first (`NotFound` when it is missing, an io error when it is a
directory), then fails with the `EISDIR` io error when the destination is an
existing directory (a directory cannot be opened for writing), and otherwise
creates or truncates the destination file with the source's content.  The
returned boolean is the precomputed destination-existence flag. -/
def copy (st : FsState) (root : List Char) (f t : ScopedPath)
    (overwrite : Bool) : FsState × Except Error Bool :=
  if (lookupEntry st (t.with_base root)).isSome && !overwrite then
    (st, Except.error Error.conflict)
  else
    match lookupEntry st (f.with_base root) with
    | some (Entry.file c) =>
      match lookupEntry st (t.with_base root) with
      | some Entry.dir => (st, Except.error Error.ioError)
      | _ =>
        (setEntry st (t.with_base root) (Entry.file c),
          Except.ok (lookupEntry st (t.with_base root)).isSome)
    | some Entry.dir => (st, Except.error Error.ioError)
    | none => (st, Except.error Error.notFound)

/-- One step of `std::fs::rename` on the stored keys: the source key becomes
the destination key and keys below the source are re-keyed below the
destination; every other key is untouched. -/
def rekeyOne (pf pt : List Char) (e : List Char × Entry) : List Char × Entry :=
  if e.1 = pf then (pt, e.2)
  else if (pf ++ ['/']).isPrefixOf e.1 then (pt ++ e.1.drop pf.length, e.2)
  else e

/-- `std::fs::rename` on the abstract state: drops whatever was stored at the
destination and re-keys the source (and its subtree) to the destination. -/
def renameFs (st : FsState) (pf pt : List Char) : FsState :=
  (removeEntry st pt).map (rekeyOne pf pt)

/-- `SimpleFilesystem::mv`: same conflict guard as `copy`, then delegates to
`std::fs::rename`.  The os call fails with `NotFound` when the source is
missing; renaming a file onto an existing directory fails with the `EISDIR`
io error; renaming a directory onto an existing file fails with the
`ENOTDIR` io error; renaming a directory onto an existing non-empty
directory fails with the `ENOTEMPTY` io error; every remaining case replaces
the destination with the source (re-keying the source's subtree). -/
def mv (st : FsState) (root : List Char) (f t : ScopedPath)
    (overwrite : Bool) : FsState × Except Error Bool :=
  if (lookupEntry st (t.with_base root)).isSome && !overwrite then
    (st, Except.error Error.conflict)
  else
    match lookupEntry st (f.with_base root) with
    | some (Entry.file _) =>
      match lookupEntry st (t.with_base root) with
      | some Entry.dir => (st, Except.error Error.ioError)
      | _ =>
        (renameFs st (f.with_base root) (t.with_base root),
          Except.ok (lookupEntry st (t.with_base root)).isSome)
    | some Entry.dir =>
      match lookupEntry st (t.with_base root) with
      | some (Entry.file _) => (st, Except.error Error.ioError)
      | some Entry.dir =>
        if hasChild st (t.with_base root) then (st, Except.error Error.ioError)
        else
          (renameFs st (f.with_base root) (t.with_base root),
            Except.ok (lookupEntry st (t.with_base root)).isSome)
      | none =>
        (renameFs st (f.with_base root) (t.with_base root),
          Except.ok (lookupEntry st (t.with_base root)).isSome)
    | none => (st, Except.error Error.notFound)

/-- Unfolding lemma for `lookupEntry` on a cons cell. -/
theorem lookupEntry_cons (k : List Char) (w : Entry) (rest : FsState)
    (p : List Char) :
    lookupEntry ((k, w) :: rest) p
      = if k = p then some w else lookupEntry rest p := rfl

/-- A boolean list prefix is no longer than the list it prefixes. -/
theorem isPrefixOf_length_le {α : Type} [BEq α] :
    ∀ l₁ l₂ : List α, l₁.isPrefixOf l₂ = true → l₁.length ≤ l₂.length := by
  intro l₁
  induction l₁ with
  | nil => intro l₂ _; simp
  | cons a t ih =>
    intro l₂ h
    cases l₂ with
    | nil => simp [List.isPrefixOf] at h
    | cons b t₂ =>
      simp only [List.isPrefixOf, Bool.and_eq_true] at h
      have := ih t₂ h.2
      simp only [List.length_cons]
      omega

/-- Unfolding lemma for `renameFs` on a cons cell. -/
theorem renameFs_cons (pf pt k : List Char) (w : Entry) (rest : FsState) :
    renameFs ((k, w) :: rest) pf pt
      = if k = pt then renameFs rest pf pt
        else rekeyOne pf pt (k, w) :: renameFs rest pf pt := by
  unfold renameFs removeEntry
  by_cases hkt : k = pt
  · simp [List.filter_cons, hkt]
  · simp [List.filter_cons, hkt]

/-- After a rename, the destination key holds whatever the source key held
before (when source and destination differ). -/
theorem lookupEntry_renameFs (pf pt : List Char) (v : Entry) (hne : pf ≠ pt) :
    ∀ st : FsState, lookupEntry st pf = some v →
      lookupEntry (renameFs st pf pt) pt = some v := by
  intro st
  induction st with
  | nil => intro h; simp [lookupEntry] at h
  | cons hd rest ih =>
    intro h
    obtain ⟨k, w⟩ := hd
    rw [lookupEntry_cons] at h
    rw [renameFs_cons]
    by_cases hkt : k = pt
    · rw [if_pos hkt]
      apply ih
      rw [if_neg (by rw [hkt]; exact fun hh => hne hh.symm)] at h
      exact h
    · rw [if_neg hkt]
      by_cases hkf : k = pf
      · rw [if_pos hkf] at h
        have hre : rekeyOne pf pt (k, w) = (pt, w) := by
          simp [rekeyOne, hkf]
        rw [hre, lookupEntry_cons, if_pos rfl]
        exact h
      · rw [if_neg hkf] at h
        have hrec := ih h
        by_cases hpre : (pf ++ ['/']).isPrefixOf k = true
        · have hlen := isPrefixOf_length_le _ _ hpre
          simp only [List.length_append, List.length_cons, List.length_nil] at hlen
          have hkey : pt ++ k.drop pf.length ≠ pt := by
            intro he
            have hl := congrArg List.length he
            simp only [List.length_append, List.length_drop] at hl
            omega
          have hre : rekeyOne pf pt (k, w) = (pt ++ k.drop pf.length, w) := by
            simp [rekeyOne, hkf, hpre]
          rw [hre, lookupEntry_cons, if_neg hkey]
          exact hrec
        · have hre : rekeyOne pf pt (k, w) = (k, w) := by
            simp [rekeyOne, hkf, hpre]
          rw [hre, lookupEntry_cons, if_neg hkt]
          exact hrec

/-- Claim C6: for `copy` and `mv`, when the destination exists and overwrite
was not requested, the operation returns `Conflict` and leaves the state (and
hence both files' contents) unchanged; when the destination exists and
overwrite is requested, the operation returns `true` and the destination
afterwards holds the source's content at call time.  The claim's talk of the
two contents presupposes that source and destination resolve to regular
files at distinct locations, which is made explicit here. -/
theorem c6_copy_mv_conflict_and_overwrite (st : FsState) (root : List Char)
    (f t : ScopedPath) (d c : List Nat)
    (hto : lookupEntry st (t.with_base root) = some (Entry.file d))
    (hfrom : lookupEntry st (f.with_base root) = some (Entry.file c))
    (hne : f.with_base root ≠ t.with_base root) :
    copy st root f t false = (st, Except.error Error.conflict) ∧
    mv st root f t false = (st, Except.error Error.conflict) ∧
    (copy st root f t true).2 = Except.ok true ∧
    lookupEntry (copy st root f t true).1 (t.with_base root)
      = some (Entry.file c) ∧
    (mv st root f t true).2 = Except.ok true ∧
    lookupEntry (mv st root f t true).1 (t.with_base root)
      = some (Entry.file c) := by
  refine ⟨?_, ?_, ?_, ?_, ?_, ?_⟩
  · unfold copy
    rw [hto]
    simp
  · unfold mv
    rw [hto]
    simp
  · unfold copy
    rw [hto, hfrom]
    simp
  · unfold copy
    rw [hto, hfrom]
    simp [setEntry, lookupEntry_cons]
  · unfold mv
    rw [hto, hfrom]
    simp
  · unfold mv
    rw [hto, hfrom]
    simp only [Option.isSome_some, Bool.not_true, Bool.and_false,
      Bool.false_eq_true, if_false]
    exact lookupEntry_renameFs _ _ _ hne st hfrom

instance {ε α : Type} [DecidableEq ε] [DecidableEq α] :
    DecidableEq (Except ε α) := fun x y =>
  match x, y with
  | .ok a, .ok b =>
    if h : a = b then .isTrue (by rw [h])
    else .isFalse (fun hh => h (Except.ok.inj hh))
  | .error a, .error b =>
    if h : a = b then .isTrue (by rw [h])
    else .isFalse (fun hh => h (Except.error.inj hh))
  | .ok _, .error _ => .isFalse (fun hh => Except.noConfusion hh)
  | .error _, .ok _ => .isFalse (fun hh => Except.noConfusion hh)

/-- Claim C6 witness: the copy and mv semantics instantiated on a concrete
state holding the files a (content `[1]`) and b (content `[2]`) under the
root. -/
theorem c6_witness :
    copy [(['/', 'r', '/', 'a'], Entry.file [1]),
          (['/', 'r', '/', 'b'], Entry.file [2])] ['/', 'r']
        (ScopedPath.new ['a']) (ScopedPath.new ['b']) false
      = ([(['/', 'r', '/', 'a'], Entry.file [1]),
          (['/', 'r', '/', 'b'], Entry.file [2])],
         Except.error Error.conflict) ∧
    mv [(['/', 'r', '/', 'a'], Entry.file [1]),
        (['/', 'r', '/', 'b'], Entry.file [2])] ['/', 'r']
        (ScopedPath.new ['a']) (ScopedPath.new ['b']) false
      = ([(['/', 'r', '/', 'a'], Entry.file [1]),
          (['/', 'r', '/', 'b'], Entry.file [2])],
         Except.error Error.conflict) ∧
    (copy [(['/', 'r', '/', 'a'], Entry.file [1]),
           (['/', 'r', '/', 'b'], Entry.file [2])] ['/', 'r']
        (ScopedPath.new ['a']) (ScopedPath.new ['b']) true).2 = Except.ok true ∧
    lookupEntry
      (copy [(['/', 'r', '/', 'a'], Entry.file [1]),
             (['/', 'r', '/', 'b'], Entry.file [2])] ['/', 'r']
        (ScopedPath.new ['a']) (ScopedPath.new ['b']) true).1
      ((ScopedPath.new ['b']).with_base ['/', 'r']) = some (Entry.file [1]) ∧
    (mv [(['/', 'r', '/', 'a'], Entry.file [1]),
         (['/', 'r', '/', 'b'], Entry.file [2])] ['/', 'r']
        (ScopedPath.new ['a']) (ScopedPath.new ['b']) true).2 = Except.ok true ∧
    lookupEntry
      (mv [(['/', 'r', '/', 'a'], Entry.file [1]),
           (['/', 'r', '/', 'b'], Entry.file [2])] ['/', 'r']
        (ScopedPath.new ['a']) (ScopedPath.new ['b']) true).1
      ((ScopedPath.new ['b']).with_base ['/', 'r']) = some (Entry.file [1]) :=
  c6_copy_mv_conflict_and_overwrite
    [(['/', 'r', '/', 'a'], Entry.file [1]),
     (['/', 'r', '/', 'b'], Entry.file [2])] ['/', 'r']
    (ScopedPath.new ['a']) (ScopedPath.new ['b']) [2] [1]
    (by decide) (by decide) (by decide)

/-- Claim C7 counterexample: on a state where the directory s already exists
under the root, `create_dir` returns the IO error kind (because the
`AlreadyExists` io error kind is not mapped to `Conflict` by the `From`
impl), not the `Conflict` the claim states. -/
theorem c7_counterexample :
    (create_dir [(['/', 'r'], Entry.dir), (['/', 'r', '/', 's'], Entry.dir)]
        ['/', 'r'] (ScopedPath.new ['s'])).2 = Except.error Error.ioError ∧
    (create_dir [(['/', 'r'], Entry.dir), (['/', 'r', '/', 's'], Entry.dir)]
        ['/', 'r'] (ScopedPath.new ['s'])).2 ≠ Except.error Error.conflict := by
  decide

/-- Claim C7 (amended): `create_dir` on an existing path returns the IO error
kind (the `AlreadyExists` io error kind stays `Error::IO` in the `From`
impl), not `Conflict`; and calling `create_dir` twice on a fresh path whose
parent directory exists yields success and then that same IO error. -/
theorem c7_amended_create_dir_io :
    (∀ (st : FsState) (root : List Char) (p : ScopedPath) (e : Entry),
      lookupEntry st (p.with_base root) = some e →
      create_dir st root p = (st, Except.error Error.ioError)) ∧
    (∀ (st : FsState) (root : List Char) (p : ScopedPath),
      lookupEntry st (p.with_base root) = none →
      lookupEntry st (parentOf (p.with_base root)) = some Entry.dir →
      (create_dir st root p).2 = Except.ok () ∧
      (create_dir (create_dir st root p).1 root p).2
        = Except.error Error.ioError) := by
  constructor
  · intro st root p e h
    unfold create_dir
    rw [h]
  · intro st root p h hp
    have h2 : lookupEntry (setEntry st (p.with_base root) Entry.dir)
        (p.with_base root) = some Entry.dir := by
      unfold setEntry
      rw [lookupEntry_cons, if_pos rfl]
    have hfst : create_dir st root p
        = (setEntry st (p.with_base root) Entry.dir, Except.ok ()) := by
      unfold create_dir
      rw [h, hp]
    refine ⟨?_, ?_⟩
    · rw [hfst]
    · rw [hfst]
      unfold create_dir
      rw [h2]

/-- Claim C7 witness: the amended statement instantiated on a concrete state
containing only the root directory, creating the directory s twice. -/
theorem c7_witness :
    create_dir [(['/', 'r'], Entry.dir), (['/', 'r', '/', 's'], Entry.dir)]
        ['/', 'r'] (ScopedPath.new ['s'])
      = ([(['/', 'r'], Entry.dir), (['/', 'r', '/', 's'], Entry.dir)],
         Except.error Error.ioError) ∧
    ((create_dir [(['/', 'r'], Entry.dir)] ['/', 'r']
        (ScopedPath.new ['s'])).2 = Except.ok () ∧
     (create_dir (create_dir [(['/', 'r'], Entry.dir)] ['/', 'r']
          (ScopedPath.new ['s'])).1 ['/', 'r'] (ScopedPath.new ['s'])).2
        = Except.error Error.ioError) :=
  ⟨c7_amended_create_dir_io.1
      [(['/', 'r'], Entry.dir), (['/', 'r', '/', 's'], Entry.dir)] ['/', 'r']
      (ScopedPath.new ['s']) Entry.dir (by decide),
   c7_amended_create_dir_io.2 [(['/', 'r'], Entry.dir)] ['/', 'r']
      (ScopedPath.new ['s']) (by decide) (by decide)⟩

/-- Claim C8 counterexample: `delete_file` on the empty state (so the path
resolves to nothing) silently succeeds with `Ok(())` instead of returning
`NotFound`. -/
theorem c8_counterexample :
    delete_file [] ['/', 'r'] (ScopedPath.new ['x'])
      = ([], Except.ok ()) ∧
    (delete_file [] ['/', 'r'] (ScopedPath.new ['x'])).2
      ≠ Except.error Error.notFound := by decide

/-- Claim C8 (amended): when the resolved location exists neither as a file
nor as a directory, `delete_file` is a silent no-op: it returns success and
leaves the state unchanged, rather than returning `NotFound`. -/
theorem c8_amended_delete_file_noop (st : FsState) (root : List Char)
    (p : ScopedPath) (h : lookupEntry st (p.with_base root) = none) :
    delete_file st root p = (st, Except.ok ()) := by
  unfold delete_file
  rw [h]

/-- Claim C8 witness: the amended no-op statement instantiated on a concrete
state that does not contain the deleted path. -/
theorem c8_witness :
    delete_file [(['/', 'r'], Entry.dir)] ['/', 'r'] (ScopedPath.new ['x'])
      = ([(['/', 'r'], Entry.dir)], Except.ok ()) :=
  c8_amended_delete_file_noop [(['/', 'r'], Entry.dir)] ['/', 'r']
    (ScopedPath.new ['x']) (by decide)

/-- Claim C9 counterexample: `list_dir` on a path that resolves to a regular
file returns an IO error (`read_dir` fails with the `NotADirectory` io error
kind, which the `From` impl keeps as `Error::IO`), not the empty sequence
the claim states. -/
theorem c9_counterexample :
    (list_dir [(['/', 'r'], Entry.dir), (['/', 'r', '/', 'f'], Entry.file [7])]
        ['/', 'r'] (ScopedPath.new ['f'])).2 = Except.error Error.ioError ∧
    (list_dir [(['/', 'r'], Entry.dir), (['/', 'r', '/', 'f'], Entry.file [7])]
        ['/', 'r'] (ScopedPath.new ['f'])).2
      ≠ Except.ok ([] : List ScopedPath) := by decide

/-- Claim C9 (amended): for every path whose resolved location exists as a
regular file, `list_dir` returns the IO error kind, leaving the state
unchanged — not an empty child sequence. -/
theorem c9_amended_list_dir_file_io (st : FsState) (root : List Char)
    (p : ScopedPath) (c : List Nat)
    (h : lookupEntry st (p.with_base root) = some (Entry.file c)) :
    list_dir st root p = (st, Except.error Error.ioError) := by
  unfold list_dir
  rw [h]

/-- Claim C9 witness: the amended statement instantiated on a concrete state
holding one regular file under the root. -/
theorem c9_witness :
    list_dir [(['/', 'r'], Entry.dir), (['/', 'r', '/', 'f'], Entry.file [7])]
        ['/', 'r'] (ScopedPath.new ['f'])
      = ([(['/', 'r'], Entry.dir), (['/', 'r', '/', 'f'], Entry.file [7])],
         Except.error Error.ioError) :=
  c9_amended_list_dir_file_io
    [(['/', 'r'], Entry.dir), (['/', 'r', '/', 'f'], Entry.file [7])]
    ['/', 'r'] (ScopedPath.new ['f']) [7] (by decide)

/-- The fixed chunk bound of `FileStream::poll_next`: 65536 bytes. -/
def maxChunkSize : Nat := 65536

/-- `std::io::Read::read_exact` on a seekable file modelled as a byte list:
reading `n` bytes at position `pos` succeeds exactly when that many bytes
remain, and yields those bytes. -/
def readExact (file : List Nat) (pos n : Nat) : Option (List Nat) :=
  if pos + n ≤ file.length then some ((file.drop pos).take n) else none

/-- The chunk sequence produced by repeatedly polling `FileStream`
(`src/filesystem.rs`): when the running counter has reached `len` the stream
ends; otherwise it reads `min(len - counter, 65536)` bytes at the current
position (`offset + counter`), advances the counter by that amount and yields
the buffer.  A failing read aborts the whole sequence (`none`). -/
def fileStreamChunks (file : List Nat) (offset len counter : Nat) :
    Option (List (List Nat)) :=
  if _h : len ≤ counter then some []
  else
    match readExact file (offset + counter) (min (len - counter) maxChunkSize) with
    | none => none
    | some buf =>
      match fileStreamChunks file offset len
          (counter + min (len - counter) maxChunkSize) with
      | none => none
      | some rest => some (buf :: rest)
termination_by len - counter
decreasing_by
  simp only [maxChunkSize]
  omega

/-- `FileReader::stream(len, offset)` for `std::fs::File`: seeks to `offset`
(seeking past the end succeeds without error) and then drains the
`FileStream` with a fresh counter. -/
def stream (file : List Nat) (len offset : Nat) : Option (List (List Nat)) :=
  fileStreamChunks file offset len 0

/-- The chunk sequence reproduces exactly the requested window of the file:
generalized over the running counter, for the induction. -/
theorem fileStreamChunks_spec (file : List Nat) (offset len : Nat)
    (h : offset + len ≤ file.length) :
    ∀ d counter, len - counter ≤ d →
      ∃ chunks, fileStreamChunks file offset len counter = some chunks ∧
        chunks.flatten = (file.drop (offset + counter)).take (len - counter) ∧
        ∀ ch ∈ chunks, ch.length ≤ maxChunkSize := by
  intro d
  induction d with
  | zero =>
    intro counter hd
    have hlc : len ≤ counter := by omega
    have h0 : len - counter = 0 := by omega
    refine ⟨[], ?_, ?_, by simp⟩
    · unfold fileStreamChunks
      rw [dif_pos hlc]
    · simp [h0]
  | succ d ih =>
    intro counter hd
    by_cases hlc : len ≤ counter
    · have h0 : len - counter = 0 := by omega
      refine ⟨[], ?_, ?_, by simp⟩
      · unfold fileStreamChunks
        rw [dif_pos hlc]
      · simp [h0]
    · have hM : 1 ≤ maxChunkSize := by decide
      have hmb1 : 1 ≤ min (len - counter) maxChunkSize := by omega
      have hmble : min (len - counter) maxChunkSize ≤ len - counter := by omega
      have hread : readExact file (offset + counter)
            (min (len - counter) maxChunkSize)
          = some ((file.drop (offset + counter)).take
              (min (len - counter) maxChunkSize)) := by
        unfold readExact
        rw [if_pos (by omega)]
      obtain ⟨rest, hr, hj, hs⟩ :=
        ih (counter + min (len - counter) maxChunkSize) (by omega)
      refine ⟨(file.drop (offset + counter)).take
          (min (len - counter) maxChunkSize) :: rest, ?_, ?_, ?_⟩
      · unfold fileStreamChunks
        rw [dif_neg hlc]
        simp only [hread, hr]
      · simp only [List.flatten_cons]
        have hE : file.drop (offset + (counter + min (len - counter) maxChunkSize))
            = (file.drop (offset + counter)).drop
                (min (len - counter) maxChunkSize) := by
          rw [List.drop_drop]
          congr 1
          omega
        rw [hj, hE, ← List.take_add]
        congr 1
        omega
      · intro ch hch
        rcases List.mem_cons.mp hch with hh | hmem
        · rw [hh]
          have hle : min (len - counter) maxChunkSize ≤ maxChunkSize :=
            Nat.min_le_right _ _
          simp only [List.length_take]
          omega
        · exact hs ch hmem

/-- Claim C4: for a request of `len` bytes at `offset` with
`offset + len ≤ file.length`, the stream yields a finite sequence of chunks,
each at most 65536 bytes, whose concatenation equals exactly the file's bytes
in the window starting at `offset` of length `len`; the sequence ends once
`len` bytes have been produced (the model's stream is a finite list ending
exactly when the counter reaches `len`). -/
theorem c4_stream_exact_range (file : List Nat) (len offset : Nat)
    (h : offset + len ≤ file.length) :
    ∃ chunks, stream file len offset = some chunks ∧
      chunks.flatten = (file.drop offset).take len ∧
      ∀ ch ∈ chunks, ch.length ≤ 65536 := by
  obtain ⟨chunks, h1, h2, h3⟩ := fileStreamChunks_spec file offset len h len 0
    (by omega)
  refine ⟨chunks, h1, ?_, ?_⟩
  · simpa using h2
  · intro ch hch
    have := h3 ch hch
    simpa [maxChunkSize] using this

/-- Claim C4 witness: the stream of 3 bytes at offset 1 of a concrete 5-byte
file. -/
theorem c4_witness :
    ∃ chunks, stream [10, 20, 30, 40, 50] 3 1 = some chunks ∧
      chunks.flatten = ([10, 20, 30, 40, 50].drop 1).take 3 ∧
      ∀ ch ∈ chunks, ch.length ≤ 65536 :=
  c4_stream_exact_range [10, 20, 30, 40, 50] 3 1 (by decide)

end Wolke
